import Mathlib

/-!
# tablow: table views over rows of a relational store

A shallow embedding of `tableview/tableview.go`.  The handlers
`GenerateTableView` and `GenerateEditableTableView` are functions from a
request, a view configuration and the answers of the store to the list of
calls they make to the store and the response they produce.

The store with its query builder, the template engine and the library
functions that turn values into text (`fmt.Sprintf("%v", _)`,
`url.Values.Encode`) are collaborators of the program: the answers of the store
and the two text functions are parameters of the handlers.  Of the execution
of the templates, the `href` of the sort link of a header is embedded
(`sortLink`), with the escaping html/template applies to it.
-/

namespace Tablow

/-! ## Data model -/

/-- Go `url.Values` (`map[string][]string`) as an association list; only the
first entry of a key is visible to a lookup. -/
abbrev Values := List (String × List String)

/-- The slice `v[key]` (empty when the key is absent). -/
def Values.find : Values → String → List String
  | [], _ => []
  | (k, vs) :: rest, key => if k = key then vs else Values.find rest key

/-- Go `url.Values.Get`: the first value of the key, or the empty string. -/
def Values.Get (v : Values) (key : String) : String :=
  match Values.find v key with
  | [] => ""
  | x :: _ => x

/-- Go `url.Values.Del`: deletes the values of the key. -/
def Values.Del (v : Values) (key : String) : Values :=
  v.filter (fun e => e.1 ≠ key)

/-- Go `map[string]interface{}` as an association list without repeated keys. -/
abbrev GoMap (V : Type) := List (String × V)

/-- The assignment `m[key] = val`. -/
def GoMap.set {V : Type} : GoMap V → String → V → GoMap V
  | [], key, val => [(key, val)]
  | (k, v) :: rest, key, val =>
    if k = key then (k, val) :: rest else (k, v) :: GoMap.set rest key val

/-- The lookup `m[key]`, `none` when the key is not in the map. -/
def GoMap.get {V : Type} : GoMap V → String → Option V
  | [], _ => none
  | (k, v) :: rest, key => if k = key then some v else GoMap.get rest key

structure FilterField where
  Name : String
  /-- The field `Type` of the source: "dropdown", "checkbox". -/
  Type_ : String
  Options : List String
deriving DecidableEq, Repr

structure Column where
  Name : String
  Field : String
deriving DecidableEq, Repr

/-- The view configuration.  `Model` names the model the view is over (in
the source a pointer to a value of the model struct). -/
structure TableView where
  Name : String
  Model : String
  Filters : List FilterField
  Sortable : List String
  ColumnData : List Column
  Editable : Bool
deriving DecidableEq, Repr

/-- What the handlers read of an `*http.Request`: the method, `r.URL.Path`,
`r.URL.Query()`, the error `r.ParseForm()` returns (if any) and `r.Form` as
`ParseForm` leaves it. -/
structure Request where
  Method : String
  Path : String
  Query : Values
  ParseFormErr : Option String
  Form : Values
deriving DecidableEq, Repr

/-- Go `r.FormValue(key)` once the form has been parsed. -/
def FormValue (r : Request) (key : String) : String :=
  Values.Get r.Form key

/-! ## The store and its query builder -/

/-- The statement a chain of `db.Model(..).Where(..).Order(..)` calls has
built: the model, the WHERE conditions with the argument bound to each, and
the ORDER BY clauses, in the order they were added. -/
structure Query where
  Model : String
  wheres : List (String × String)
  orders : List String
deriving DecidableEq, Repr

/-- The call `db.Model(m)`. -/
def Model (m : String) : Query :=
  { Model := m, wheres := [], orders := [] }

/-- The call `query.Where(cond, arg)`. -/
def Query.Where (query : Query) (cond arg : String) : Query :=
  { query with wheres := query.wheres ++ [(cond, arg)] }

/-- The call `query.Order(value)`. -/
def Query.Order (query : Query) (value : String) : Query :=
  { query with orders := query.orders ++ [value] }

/-- A field of a value of the model struct, as reflection sees it: its name,
whether the name is exported (Go `StructField.IsExported`: it starts with an
upper-case letter), and its value. -/
structure StructField (V : Type) where
  Name : String
  Exported : Bool
  Value : V
deriving DecidableEq, Repr

/-- A row the store returns: the fields of a value of the model struct,
exported or not; a lookup by name sees the first field of that name. -/
abbrev Row (V : Type) := List (StructField V)

/-- Go `reflect.Value` of a struct field looked up by name: the zero Value,
or the value of a field, read-only when it was obtained from an unexported
field. -/
inductive ReflectValue (V : Type) where
  | invalid
  | valid (v : V) (readOnly : Bool)
deriving DecidableEq, Repr

/-- Go `row.FieldByName(name)`: the zero `reflect.Value` when the struct
has no field of that name; the value of an unexported field is read-only. -/
def FieldByName {V : Type} : Row V → String → ReflectValue V
  | [], _ => .invalid
  | f :: rest, name =>
    if f.Name = name then .valid f.Value (!f.Exported) else FieldByName rest name

/-- Go `field.IsValid()`: whether the Value is other than the zero Value. -/
def ReflectValue.IsValid {V : Type} : ReflectValue V → Bool
  | .invalid => false
  | .valid _ _ => true

/-- Go `field.Interface()`.  `none` is a panic: of `Interface` on the zero
`reflect.Value`, or on a value obtained from an unexported field. -/
def ReflectValue.Interface {V : Type} : ReflectValue V → Option V
  | .invalid => none
  | .valid _ true => none
  | .valid v false => some v

/-- What `Find` leaves behind: the rows scanned into the destination and
`result.Error`. -/
structure FindResult (V : Type) where
  rows : List (Row V)
  Error : Option String
deriving DecidableEq, Repr

/-- The answers of the store: to `query.Find(rows)`, and to
`query.Updates(data)` (the `result.Error`, if any). -/
structure Store (V : Type) where
  Find : Query → FindResult V
  Updates : Query → GoMap String → Option String

/-- A call a handler makes to the store. -/
inductive Call where
  | Find (query : Query)
  | Updates (query : Query) (data : GoMap String)
deriving DecidableEq, Repr

/-- The data `GenerateTableView` hands to `baseTemplate`. -/
structure TableData where
  Title : String
  Filters : List FilterField
  Headers : List String
  Rows : List (List String)
  Query : String
deriving DecidableEq, Repr

/-- The data `GenerateEditableTableView` hands to
`editableTableViewTemplate`. -/
structure EditableTableData (V : Type) where
  Title : String
  Headers : List String
  Fields : List String
  Filters : List FilterField
  Rows : List (GoMap V)
  Query : String
deriving DecidableEq, Repr

/-- What a handler does with the response writer. -/
inductive Response (V : Type) where
  /-- The call `http.Error(w, msg, code)`. -/
  | Error (msg : String) (code : Nat)
  /-- The call `http.Redirect(w, r, url, code)`. -/
  | Redirect (url : String) (code : Nat)
  /-- The base template executed on the data. -/
  | Table (data : TableData)
  /-- The editable template executed on the data. -/
  | EditableTable (data : EditableTableData V)
  /-- A panic of the reflection library: nothing is written. -/
  | Panic
deriving DecidableEq, Repr

/-- A handled request: the calls made to the store, in order, and the
response. -/
structure Handled (V : Type) where
  calls : List Call
  response : Response V
deriving DecidableEq, Repr

/-! ## `GenerateTableView` -/

/-- The helper `contains` of the source. -/
def contains : List String → String → Bool
  | [], _ => false
  | elem :: rest, item => if elem = item then true else contains rest item

/-- The loop "Apply filters": one `Where` for each declared filter whose
query parameter is not empty. -/
def applyFilters (r : Request) (filters : List FilterField) (query : Query) : Query :=
  filters.foldl (fun query filter =>
    let value := Values.Get r.Query filter.Name
    if value ≠ "" then query.Where (filter.Name ++ " = ?") value else query) query

/-- The step "Apply sorting". -/
def applySorting (r : Request) (sortable : List String) (query : Query) : Query :=
  let sort := Values.Get r.Query "sort"
  if sort ≠ "" ∧ contains sortable sort = true then query.Order sort else query

/-- The query `GenerateTableView` runs `Find` on. -/
def tableQuery (r : Request) (view : TableView) : Query :=
  applySorting r view.Sortable (applyFilters r view.Filters (Model view.Model))

/-- The loop that collects the headers. -/
def tableHeaders (columns : List Column) : List String :=
  columns.foldl (fun headers col => headers ++ [col.Name]) []

/-- The inner loop over the columns: the cells of one row.  `none` is the
panic of `field.Interface()` when the row has no field `col.Field`, or an
unexported one. -/
def tableRowData {V : Type} (sprint : V → String) (columns : List Column) (row : Row V) :
    Option (List String) :=
  columns.foldlM (fun rowData col =>
    match (FieldByName row col.Field).Interface with
    | none => none
    | some x => some (rowData ++ [sprint x])) []

/-- The outer loop over the fetched rows. -/
def tableRows {V : Type} (sprint : V → String) (columns : List Column) (rows : List (Row V)) :
    Option (List (List String)) :=
  rows.foldlM (fun data row =>
    match tableRowData sprint columns row with
    | none => none
    | some rowData => some (data ++ [rowData])) []

/-- The handler `GenerateTableView`.  `sprint` is `fmt.Sprintf("%v", _)` and
`encode` is `url.Values.Encode`. -/
def GenerateTableView {V : Type} (sprint : V → String) (encode : Values → String)
    (store : Store V) (r : Request) (view : TableView) : Handled V :=
  let query := tableQuery r view
  let rows := (store.Find query).rows
  let headers := tableHeaders view.ColumnData
  match tableRows sprint view.ColumnData rows with
  | none => { calls := [Call.Find query], response := Response.Panic }
  | some data =>
    let queryParams := Values.Del r.Query "sort"
    { calls := [Call.Find query],
      response := Response.Table
        { Title := view.Name, Filters := view.Filters, Headers := headers,
          Rows := data, Query := encode queryParams } }

/-! ## `GenerateEditableTableView` -/

/-- The helper `extractHeaders` of the source. -/
def extractHeaders (columns : List Column) : List String :=
  columns.map (fun col => col.Name)

/-- The helper `extractFields` of the source. -/
def extractFields (columns : List Column) : List String :=
  columns.map (fun col => col.Field)

/-- The loop that fills `updateData` from the form, by field name. -/
def updateData (r : Request) (columns : List Column) : GoMap String :=
  columns.foldl (fun updateData col =>
    let formValue := FormValue r ("col_" ++ col.Field)
    if formValue ≠ "" then GoMap.set updateData col.Field formValue else updateData) []

/-- The map built for one fetched row: the field ID when the row has one,
then every configured column whose field the row has.  `none` is the panic
of `Interface` on a field that is valid and unexported. -/
def editableRowData {V : Type} (columns : List Column) (row : Row V) : Option (GoMap V) :=
  let rowData : GoMap V := []
  let idField := FieldByName row "ID"
  let withID : Option (GoMap V) :=
    if idField.IsValid = true then
      match idField.Interface with
      | none => none
      | some v => some (GoMap.set rowData "ID" v)
    else some rowData
  match withID with
  | none => none
  | some rowData =>
    columns.foldlM (fun rowData col =>
      let field := FieldByName row col.Field
      if field.IsValid = true then
        match field.Interface with
        | none => none
        | some v => some (GoMap.set rowData col.Field v)
      else some rowData) rowData

/-- The loop over the fetched rows. -/
def editableTableData {V : Type} (columns : List Column) (rows : List (Row V)) :
    Option (List (GoMap V)) :=
  rows.foldlM (fun tableData row =>
    match editableRowData columns row with
    | none => none
    | some rowData => some (tableData ++ [rowData])) []

/-- The handler `GenerateEditableTableView`. -/
def GenerateEditableTableView {V : Type} (encode : Values → String)
    (store : Store V) (r : Request) (view : TableView) : Handled V :=
  if r.Method = "POST" then
    match r.ParseFormErr with
    | some err =>
      { calls := [], response := Response.Error ("Failed to parse form data: " ++ err) 400 }
    | none =>
      let id := FormValue r "id"
      if id = "" then
        { calls := [], response := Response.Error "Missing record ID" 400 }
      else
        let data := updateData r view.ColumnData
        let query := (Model view.Model).Where "id = ?" id
        match store.Updates query data with
        | some err =>
          { calls := [Call.Updates query data],
            response := Response.Error ("Failed to update record: " ++ err) 500 }
        | none =>
          { calls := [Call.Updates query data], response := Response.Redirect r.Path 303 }
  else
    let query := Model view.Model
    let result := store.Find query
    match result.Error with
    | some _ =>
      { calls := [Call.Find query], response := Response.Error "Failed to fetch data" 500 }
    | none =>
      match editableTableData view.ColumnData result.rows with
      | none => { calls := [Call.Find query], response := Response.Panic }
      | some tableData =>
        { calls := [Call.Find query],
          response := Response.EditableTable
            { Title := view.Name, Headers := extractHeaders view.ColumnData,
              Fields := extractFields view.ColumnData, Filters := view.Filters,
              Rows := tableData, Query := encode r.Query } }

/-! ## The sort link of `baseTemplate` -/

/-- One hexadecimal digit in lower case, as Go `%x` writes it. -/
def hexDigit (n : Nat) : Char :=
  if n < 10 then Char.ofNat (48 + n) else Char.ofNat (87 + n)

/-- The bytes html/template leaves as they are in the query part of a URL:
the letters, the digits and `-`, `.`, `_`, `~`. -/
def urlUnreserved (c : Nat) : Bool :=
  (97 ≤ c ∧ c ≤ 122) ∨ (65 ≤ c ∧ c ≤ 90) ∨ (48 ≤ c ∧ c ≤ 57) ∨
    c = 45 ∨ c = 46 ∨ c = 95 ∨ c = 126

/-- Go html/template on an action in the query part of a URL attribute
(`_html_template_urlescaper` on a plain string): every byte that is not
unreserved is written as `%` and two hexadecimal digits.  The attribute
escaper that runs after it changes none of the characters it writes. -/
def urlEscaper (s : String) : String :=
  String.mk (((s.data.map String.utf8EncodeChar).flatten.map
    (fun b =>
      let c := b.toNat
      if urlUnreserved c = true then [Char.ofNat c]
      else ['%', hexDigit (c / 16), hexDigit (c % 16)])).flatten)

/-- The `href` of the link of a header, line 51 of the source:
`?sort={{.}}&{{$.Query}}` executed on a header and the Query string of the
template data. -/
def sortLink (header query : String) : String :=
  "?sort=" ++ urlEscaper header ++ "&" ++ urlEscaper query

/-! ## Example inputs -/

/-- The values of the fields of the examples: Go integers and strings. -/
inductive FieldValue where
  | int (i : Int)
  | string (s : String)
deriving DecidableEq, Repr

/-- Go `fmt.Sprintf("%v", _)` on integers and strings. -/
def sprintv : FieldValue → String
  | .int i => toString i
  | .string s => s

/-- Go `url.Values.Encode` on values whose keys are listed in sorted order
and whose keys and values need no escaping. -/
def encodePlain (v : Values) : String :=
  "&".intercalate (v.map (fun e => e.2.map (fun x => e.1 ++ "=" ++ x))).flatten

/-- The view of `demo.go`. -/
def demoView : TableView :=
  { Name := "Dynamic Table", Model := "User",
    Filters := [{ Name := "Name", Type_ := "dropdown", Options := ["Alice", "Bob"] }],
    Sortable := ["ID", "Name", "Age"],
    ColumnData := [{ Name := "ID", Field := "ID" }, { Name := "Name", Field := "Name" },
      { Name := "Age", Field := "Age" }],
    Editable := false }

/-- The view of `demo.go` with one more column, on a field the model
`User` does not have. -/
def emailView : TableView :=
  { demoView with ColumnData := demoView.ColumnData ++ [{ Name := "E-mail", Field := "Email" }] }

/-- A view whose only column is shown under a name other than its field,
over a model with the field ID. -/
def nameView : TableView :=
  { Name := "Users", Model := "User", Filters := [], Sortable := [],
    ColumnData := [{ Name := "Full name", Field := "Name" }], Editable := true }

/-- A row of the model `User` of `demo.go`. -/
def userRow (id : Int) (name : String) (age : Int) : Row FieldValue :=
  [{ Name := "ID", Exported := true, Value := .int id },
   { Name := "Name", Exported := true, Value := .string name },
   { Name := "Age", Exported := true, Value := .int age }]

/-- The rows `demo.go` creates. -/
def demoRows : List (Row FieldValue) :=
  [userRow 1 "Alice" 30, userRow 2 "Bob" 25, userRow 3 "Charlie" 35]

/-- One row of a model `struct { ID int; Label string; note string }`: the
field `note` is unexported. -/
def noteRows : List (Row FieldValue) :=
  [[{ Name := "ID", Exported := true, Value := .int 1 },
    { Name := "Label", Exported := true, Value := .string "red" },
    { Name := "note", Exported := false, Value := .string "draft" }]]

/-- A store that answers every `Find` with the row of the model with the
unexported field. -/
def noteStore : Store FieldValue :=
  { Find := fun _ => { rows := noteRows, Error := none },
    Updates := fun _ _ => none }

/-- A view over the model with the unexported field, with a column on that
field. -/
def noteView : TableView :=
  { Name := "Notes", Model := "Note", Filters := [], Sortable := [],
    ColumnData := [{ Name := "Label", Field := "Label" }, { Name := "Note", Field := "note" }],
    Editable := true }

/-- The request `GET /`. -/
def getAll : Request :=
  { Method := "GET", Path := "/", Query := [], ParseFormErr := none, Form := [] }

/-- A store that answers every `Find` with the rows of `demo.go` and accepts
every update. -/
def demoStore : Store FieldValue :=
  { Find := fun _ => { rows := demoRows, Error := none },
    Updates := fun _ _ => none }

/-- The request `GET /?Name=Alice&sort=Age`. -/
def getAliceByAge : Request :=
  { Method := "GET", Path := "/", Query := [("Name", ["Alice"]), ("sort", ["Age"])],
    ParseFormErr := none, Form := [] }

/-- The request `POST /users` with the form of the edit row of Bob: the
name changed, the age cleared. -/
def postEditBob : Request :=
  { Method := "POST", Path := "/users", Query := [], ParseFormErr := none,
    Form := [("id", ["2"]), ("col_ID", ["2"]), ("col_Name", ["Bobby"]), ("col_Age", [""])] }

/-- The request `POST /users?id=2&col_Name=Bobby` with the body `%zz`:
`ParseForm` takes `id` and `col_Name` from the URL into `r.Form` and returns
the error of the body. -/
def postBadBodyWithId : Request :=
  { Method := "POST", Path := "/users", Query := [("id", ["2"]), ("col_Name", ["Bobby"])],
    ParseFormErr := some "invalid URL escape \"%zz\"",
    Form := [("id", ["2"]), ("col_Name", ["Bobby"])] }

/-- The request `POST /users` with the body `%zz` and no `id`. -/
def postBadBody : Request :=
  { Method := "POST", Path := "/users", Query := [],
    ParseFormErr := some "invalid URL escape \"%zz\"", Form := [] }

/-- The request `POST /users` with the form `col_Name=Bobby` and no `id`. -/
def postNoId : Request :=
  { Method := "POST", Path := "/users", Query := [], ParseFormErr := none,
    Form := [("col_Name", ["Bobby"])] }

/-! ## Lemmas on the data model -/

theorem contains_iff (slice : List String) (item : String) :
    contains slice item = true ↔ item ∈ slice := by
  induction slice with
  | nil => simp [contains]
  | cons elem rest ih =>
    by_cases h : elem = item
    · simp [contains, h]
    · have h2 : ¬ item = elem := fun e => h e.symm
      simp [contains, h, h2, ih]

theorem applyFilters_model (r : Request) (filters : List FilterField) (query : Query) :
    (applyFilters r filters query).Model = query.Model := by
  induction filters generalizing query with
  | nil => rfl
  | cons filter rest ih =>
    simp only [applyFilters, List.foldl_cons] at ih ⊢
    rw [ih]
    split <;> rfl

theorem applyFilters_orders (r : Request) (filters : List FilterField) (query : Query) :
    (applyFilters r filters query).orders = query.orders := by
  induction filters generalizing query with
  | nil => rfl
  | cons filter rest ih =>
    simp only [applyFilters, List.foldl_cons] at ih ⊢
    rw [ih]
    split <;> rfl

theorem applyFilters_wheres (r : Request) (filters : List FilterField) (query : Query) :
    (applyFilters r filters query).wheres =
      query.wheres ++
        (filters.filter (fun filter => Values.Get r.Query filter.Name ≠ "")).map
          (fun filter => (filter.Name ++ " = ?", Values.Get r.Query filter.Name)) := by
  induction filters generalizing query with
  | nil => simp [applyFilters]
  | cons filter rest ih =>
    simp only [applyFilters, List.foldl_cons] at ih ⊢
    rw [ih]
    by_cases h : Values.Get r.Query filter.Name = ""
    · simp [h]
    · simp [h, Query.Where]

theorem applySorting_wheres (r : Request) (sortable : List String) (query : Query) :
    (applySorting r sortable query).wheres = query.wheres := by
  unfold applySorting
  simp only
  split <;> rfl

theorem applySorting_orders (r : Request) (sortable : List String) (query : Query) :
    (applySorting r sortable query).orders =
      query.orders ++
        (if Values.Get r.Query "sort" ≠ "" ∧ Values.Get r.Query "sort" ∈ sortable
          then [Values.Get r.Query "sort"] else []) := by
  unfold applySorting
  simp only [contains_iff]
  split <;> simp [Query.Order]

theorem GenerateTableView_calls {V : Type} (sprint : V → String) (encode : Values → String)
    (store : Store V) (r : Request) (view : TableView) :
    (GenerateTableView sprint encode store r view).calls = [Call.Find (tableQuery r view)] := by
  unfold GenerateTableView
  simp only
  split <;> rfl

theorem foldl_append_singleton {α β : Type} (f : α → β) (xs : List α) (acc : List β) :
    xs.foldl (fun acc x => acc ++ [f x]) acc = acc ++ xs.map f := by
  induction xs generalizing acc with
  | nil => simp
  | cons x xs ih => simp [ih]

theorem foldlM_append_singleton {α β : Type} (f : α → Option β) (xs : List α)
    (acc out : List β) :
    xs.foldlM (fun acc x => (f x).map (fun y => acc ++ [y])) acc = some out ↔
      ∃ ys, out = acc ++ ys ∧ List.Forall₂ (fun x y => f x = some y) xs ys := by
  induction xs generalizing acc with
  | nil =>
    simp only [List.foldlM_nil, List.forall₂_nil_left_iff]
    constructor
    · intro h
      exact ⟨[], by simpa using (Option.some.inj h).symm, rfl⟩
    · rintro ⟨ys, h, rfl⟩
      simp [h]
  | cons x xs ih =>
    rw [List.foldlM_cons]
    cases hx : f x with
    | none =>
      simp only [List.forall₂_cons_left_iff]
      constructor
      · intro h
        simp at h
      · rintro ⟨ys, -, y, ys2, hy, -, -⟩
        rw [hx] at hy
        cases hy
    | some y =>
      simp only [List.forall₂_cons_left_iff]
      show (xs.foldlM _ (acc ++ [y]) = some out) ↔ _
      rw [ih]
      constructor
      · rintro ⟨ys, h, hf⟩
        exact ⟨y :: ys, by simpa using h, y, ys, hx, hf, rfl⟩
      · rintro ⟨ys, h, y2, ys2, hy, hf, rfl⟩
        rw [hx] at hy
        cases hy
        exact ⟨ys2, by simpa using h, hf⟩


theorem GoMap.get_set {V : Type} (m : GoMap V) (k : String) (v : V) (key : String) :
    GoMap.get (GoMap.set m k v) key = if k = key then some v else GoMap.get m key := by
  induction m with
  | nil => simp [GoMap.set, GoMap.get]
  | cons e rest ih =>
    obtain ⟨k2, v2⟩ := e
    by_cases h : k2 = k
    · subst h
      by_cases h2 : k2 = key <;> simp [GoMap.set, GoMap.get, h2]
    · by_cases h2 : k2 = key
      · subst h2
        have h3 : ¬ k = k2 := fun e => h e.symm
        simp [GoMap.set, GoMap.get, h, h3]
      · simp [GoMap.set, GoMap.get, h, h2, ih]

theorem GoMap.get_foldl {V : Type} (F : String → Option V)
    (step : GoMap V → String → GoMap V)
    (hstep : ∀ m k key, GoMap.get (step m k) key =
      if k = key ∧ (F key).isSome = true then F key else GoMap.get m key)
    (keys : List String) (m0 : GoMap V) (key : String) :
    GoMap.get (keys.foldl step m0) key =
      if key ∈ keys ∧ (F key).isSome = true then F key else GoMap.get m0 key := by
  induction keys generalizing m0 with
  | nil => simp
  | cons k ks ih =>
    rw [List.foldl_cons, ih, hstep]
    by_cases h1 : (F key).isSome = true
    · by_cases h2 : key ∈ ks
      · simp [h1, h2]
      · by_cases h3 : k = key
        · simp [h1, h3]
        · have h4 : ¬ key = k := fun e => h3 e.symm
          simp [h1, h2, h3, h4]
    · simp [h1]

theorem updateData_get (r : Request) (columns : List Column) (key : String) :
    GoMap.get (updateData r columns) key =
      if (∃ col ∈ columns, col.Field = key) ∧ FormValue r ("col_" ++ key) ≠ ""
        then some (FormValue r ("col_" ++ key)) else none := by
  have h := GoMap.get_foldl
    (fun k => if FormValue r ("col_" ++ k) ≠ "" then some (FormValue r ("col_" ++ k)) else none)
    (fun m k => if FormValue r ("col_" ++ k) ≠ "" then GoMap.set m k (FormValue r ("col_" ++ k))
      else m)
    (by
      intro m k key
      by_cases hk : k = key
      · subst hk
        by_cases hv : FormValue r ("col_" ++ k) = "" <;> simp [hv, GoMap.get_set]
      · by_cases hv : FormValue r ("col_" ++ k) = "" <;> simp [hv, hk, GoMap.get_set])
    (columns.map (fun col => col.Field)) [] key
  rw [List.foldl_map] at h
  unfold updateData
  simp only at h ⊢
  rw [h]
  by_cases hv : FormValue r ("col_" ++ key) = "" <;> simp [hv, GoMap.get]

theorem GoMap.get_foldlM {V : Type} (F : String → Option V)
    (step : GoMap V → String → Option (GoMap V))
    (hstep : ∀ m k m2, step m k = some m2 → ∀ key, GoMap.get m2 key =
      if k = key ∧ (F key).isSome = true then F key else GoMap.get m key)
    (keys : List String) (m0 m : GoMap V) (h : keys.foldlM step m0 = some m)
    (key : String) :
    GoMap.get m key =
      if key ∈ keys ∧ (F key).isSome = true then F key else GoMap.get m0 key := by
  induction keys generalizing m0 with
  | nil =>
    simp only [List.foldlM_nil] at h
    cases Option.some.inj h
    simp
  | cons k ks ih =>
    rw [List.foldlM_cons] at h
    cases hs : step m0 k with
    | none => rw [hs] at h; simp at h
    | some m1 =>
      rw [hs] at h
      have h1 : ks.foldlM step m1 = some m := h
      rw [ih m1 h1, hstep m0 k m1 hs]
      by_cases h1 : (F key).isSome = true
      · by_cases h2 : key ∈ ks
        · simp [h1, h2]
        · by_cases h3 : k = key
          · simp [h1, h3]
          · have h4 : ¬ key = k := fun e => h3 e.symm
            simp [h1, h2, h3, h4]
      · simp [h1]

theorem FieldByName_Interface_isSome {V : Type} (row : Row V) (name : String) :
    ((FieldByName row name).Interface).isSome = true ↔
      ∃ v, FieldByName row name = ReflectValue.valid v false := by
  cases hf : FieldByName row name with
  | invalid => simp [ReflectValue.Interface]
  | valid v ro => cases ro <;> simp [ReflectValue.Interface]

theorem editableRowData_step {V : Type} (row : Row V) (m : GoMap V) (k : String)
    (m2 : GoMap V)
    (h : (if (FieldByName row k).IsValid = true then
        match (FieldByName row k).Interface with
        | none => none
        | some v => some (GoMap.set m k v)
      else some m) = some m2) (key : String) :
    GoMap.get m2 key =
      if k = key ∧ ((FieldByName row key).Interface).isSome = true
        then (FieldByName row key).Interface else GoMap.get m key := by
  cases hf : FieldByName row k with
  | invalid =>
    rw [hf] at h
    simp only [ReflectValue.IsValid, Bool.false_eq_true, if_false] at h
    cases Option.some.inj h
    by_cases hk : k = key
    · subst hk
      simp [hf, ReflectValue.Interface]
    · simp [hk]
  | valid v ro =>
    rw [hf] at h
    cases ro with
    | true => simp [ReflectValue.IsValid, ReflectValue.Interface] at h
    | false =>
      simp only [ReflectValue.IsValid, ReflectValue.Interface, if_true] at h
      cases Option.some.inj h
      by_cases hk : k = key
      · subst hk
        simp [hf, ReflectValue.Interface, GoMap.get_set]
      · simp [hk, GoMap.get_set]

theorem editableRowData_get {V : Type} (columns : List Column) (row : Row V)
    (rowData : GoMap V) (h : editableRowData columns row = some rowData) (key : String) :
    GoMap.get rowData key =
      if key = "ID" ∨ ∃ col ∈ columns, col.Field = key
        then (FieldByName row key).Interface else none := by
  have hfold : ("ID" :: columns.map (fun col => col.Field)).foldlM
      (fun (m : GoMap V) (k : String) =>
        if (FieldByName row k).IsValid = true then
          match (FieldByName row k).Interface with
          | none => none
          | some v => some (GoMap.set m k v)
        else some m) [] = some rowData := by
    unfold editableRowData at h
    simp only at h
    rw [List.foldlM_cons]
    cases hid : (if (FieldByName row "ID").IsValid = true then
        match (FieldByName row "ID").Interface with
        | none => none
        | some v => some (GoMap.set ([] : GoMap V) "ID" v)
      else some []) with
    | none => rw [hid] at h; simp at h
    | some m1 =>
      rw [hid] at h
      show List.foldlM _ m1 (List.map _ columns) = some rowData
      rw [List.foldlM_map]
      exact h
  have hget := GoMap.get_foldlM (fun k => (FieldByName row k).Interface) _
    (fun m k m2 hs key => editableRowData_step row m k m2 hs key) _ [] rowData hfold key
  rw [hget]
  cases hf : (FieldByName row key).Interface <;> simp [GoMap.get, eq_comm]

theorem tableHeaders_eq (columns : List Column) :
    tableHeaders columns = columns.map (fun col => col.Name) := by
  unfold tableHeaders
  rw [foldl_append_singleton (fun col : Column => col.Name)]
  simp

theorem editableTableData_eq_some_iff {V : Type} (columns : List Column)
    (rows : List (Row V)) (tableData : List (GoMap V)) :
    editableTableData columns rows = some tableData ↔
      List.Forall₂ (fun row rowData => editableRowData columns row = some rowData)
        rows tableData := by
  have hstep : (fun (tableData : List (GoMap V)) (row : Row V) =>
      match editableRowData columns row with
      | none => none
      | some rowData => some (tableData ++ [rowData])) =
      (fun acc row => (editableRowData columns row).map (fun y => acc ++ [y])) := by
    funext tableData row
    cases editableRowData columns row <;> rfl
  unfold editableTableData
  rw [hstep, foldlM_append_singleton (fun row : Row V => editableRowData columns row)]
  simp

theorem tableRowData_eq_some_iff {V : Type} (sprint : V → String) (columns : List Column)
    (row : Row V) (cells : List String) :
    tableRowData sprint columns row = some cells ↔
      List.Forall₂ (fun col cell => ∃ v, FieldByName row col.Field = ReflectValue.valid v false ∧
        cell = sprint v) columns cells := by
  have hstep : (fun (rowData : List String) (col : Column) =>
      match (FieldByName row col.Field).Interface with
      | none => none
      | some x => some (rowData ++ [sprint x])) =
      (fun acc col =>
        (Option.map sprint (FieldByName row col.Field).Interface).map
          (fun y => acc ++ [y])) := by
    funext rowData col
    cases (FieldByName row col.Field).Interface <;> rfl
  unfold tableRowData
  rw [hstep, foldlM_append_singleton
    (fun col : Column => Option.map sprint (FieldByName row col.Field).Interface)]
  have hrel : (fun (col : Column) (cell : String) =>
      Option.map sprint (FieldByName row col.Field).Interface = some cell) =
      (fun col cell => ∃ v, FieldByName row col.Field = ReflectValue.valid v false ∧
        cell = sprint v) := by
    funext col cell
    cases FieldByName row col.Field with
    | invalid => simp [ReflectValue.Interface]
    | valid v ro => cases ro <;> simp [ReflectValue.Interface, eq_comm]
  rw [hrel]
  simp

theorem tableRows_eq_some_iff {V : Type} (sprint : V → String) (columns : List Column)
    (rows : List (Row V)) (data : List (List String)) :
    tableRows sprint columns rows = some data ↔
      List.Forall₂ (fun row cells => tableRowData sprint columns row = some cells)
        rows data := by
  have hstep : (fun (data : List (List String)) (row : Row V) =>
      match tableRowData sprint columns row with
      | none => none
      | some rowData => some (data ++ [rowData])) =
      (fun acc row => (tableRowData sprint columns row).map (fun y => acc ++ [y])) := by
    funext data row
    cases tableRowData sprint columns row <;> rfl
  unfold tableRows
  rw [hstep, foldlM_append_singleton (fun row : Row V => tableRowData sprint columns row)]
  simp

theorem forall₂_of_forall_exists {α β : Type} (R : α → β → Prop) (xs : List α)
    (h : ∀ x ∈ xs, ∃ y, R x y) : ∃ ys, List.Forall₂ R xs ys := by
  induction xs with
  | nil => exact ⟨[], List.Forall₂.nil⟩
  | cons x xs ih =>
    obtain ⟨y, hy⟩ := h x (List.mem_cons_self x xs)
    obtain ⟨ys, hys⟩ := ih (fun x2 hx2 => h x2 (List.mem_cons_of_mem x hx2))
    exact ⟨y :: ys, List.Forall₂.cons hy hys⟩

theorem forall₂_exists_of_mem_right {α β : Type} {R : α → β → Prop} {xs : List α}
    {ys : List β} (h : List.Forall₂ R xs ys) {y : β} (hy : y ∈ ys) : ∃ x ∈ xs, R x y := by
  induction h with
  | nil => simp at hy
  | cons hxy _ ih =>
    rcases List.mem_cons.mp hy with rfl | hmem
    · exact ⟨_, List.mem_cons_self _ _, hxy⟩
    · obtain ⟨x, hx, hr⟩ := ih hmem
      exact ⟨x, List.mem_cons_of_mem _ hx, hr⟩

theorem tableRows_isSome {V : Type} (sprint : V → String) (columns : List Column)
    (rows : List (Row V))
    (hfields : ∀ row ∈ rows, ∀ col ∈ columns,
      ((FieldByName row col.Field).Interface).isSome = true) :
    ∃ data, tableRows sprint columns rows = some data := by
  have h : ∃ data, List.Forall₂
      (fun row cells => tableRowData sprint columns row = some cells) rows data := by
    apply forall₂_of_forall_exists
    intro row hrow
    have h2 : ∃ cells, List.Forall₂
        (fun (col : Column) (cell : String) =>
          ∃ v, FieldByName row col.Field = ReflectValue.valid v false ∧ cell = sprint v)
        columns cells := by
      apply forall₂_of_forall_exists
      intro col hcol
      obtain ⟨v, hv⟩ :=
        (FieldByName_Interface_isSome row col.Field).mp (hfields row hrow col hcol)
      exact ⟨sprint v, v, hv, rfl⟩
    obtain ⟨cells, hcells⟩ := h2
    exact ⟨cells, (tableRowData_eq_some_iff sprint columns row cells).mpr hcells⟩
  obtain ⟨data, hdata⟩ := h
  exact ⟨data, (tableRows_eq_some_iff sprint columns rows data).mpr hdata⟩

theorem GenerateTableView_response {V : Type} (sprint : V → String)
    (encode : Values → String) (store : Store V) (r : Request) (view : TableView)
    (data : TableData) :
    (GenerateTableView sprint encode store r view).response = Response.Table data ↔
      ∃ rows, tableRows sprint view.ColumnData (store.Find (tableQuery r view)).rows =
          some rows ∧
        data = { Title := view.Name, Filters := view.Filters,
                 Headers := tableHeaders view.ColumnData, Rows := rows,
                 Query := encode (Values.Del r.Query "sort") } := by
  unfold GenerateTableView
  simp only
  cases h : tableRows sprint view.ColumnData (store.Find (tableQuery r view)).rows with
  | none => simp
  | some rows => simp [eq_comm]

theorem Values.find_Del_self (v : Values) (key : String) :
    Values.find (Values.Del v key) key = [] := by
  induction v with
  | nil => rfl
  | cons e rest ih =>
    obtain ⟨k, vs⟩ := e
    by_cases h : k = key
    · simpa [Values.Del, h] using ih
    · simpa [Values.Del, Values.find, h] using ih

theorem Values.find_Del_of_ne (v : Values) (key other : String) (hne : other ≠ key) :
    Values.find (Values.Del v key) other = Values.find v other := by
  induction v with
  | nil => rfl
  | cons e rest ih =>
    obtain ⟨k, vs⟩ := e
    by_cases h : k = key
    · subst h
      have h2 : ¬ k = other := fun e => hne e.symm
      simpa [Values.Del, Values.find, h2] using ih
    · by_cases h2 : k = other
      · subst h2
        simp [Values.Del, Values.find, List.filter_cons, h]
      · simpa [Values.Del, Values.find, List.filter_cons, h, h2] using ih

theorem Values.not_mem_Del (v : Values) (key : String) :
    ∀ e ∈ Values.Del v key, e.1 ≠ key := by
  intro e he
  simpa using (List.mem_filter.mp he).2

theorem GenerateEditableTableView_calls_get {V : Type} (encode : Values → String)
    (store : Store V) (r : Request) (view : TableView) (hget : r.Method ≠ "POST") :
    (GenerateEditableTableView encode store r view).calls = [Call.Find (Model view.Model)] := by
  unfold GenerateEditableTableView
  simp only [hget, if_false]
  split
  · rfl
  · split <;> rfl

theorem GenerateEditableTableView_response {V : Type} (encode : Values → String)
    (store : Store V) (r : Request) (view : TableView) (hget : r.Method ≠ "POST")
    (data : EditableTableData V) :
    (GenerateEditableTableView encode store r view).response = Response.EditableTable data ↔
      (store.Find (Model view.Model)).Error = none ∧
      ∃ tableData,
        editableTableData view.ColumnData (store.Find (Model view.Model)).rows =
          some tableData ∧
        data = { Title := view.Name, Headers := extractHeaders view.ColumnData,
                 Fields := extractFields view.ColumnData, Filters := view.Filters,
                 Rows := tableData, Query := encode r.Query } := by
  unfold GenerateEditableTableView
  simp only [hget, if_false]
  cases herr : (store.Find (Model view.Model)).Error with
  | some err => simp
  | none =>
    cases h : editableTableData view.ColumnData (store.Find (Model view.Model)).rows with
    | none => simp
    | some tableData => simp [eq_comm]

/-- When `Interface` succeeds on the field of every configured column in
every returned row, `GenerateTableView` hands the template the headers in
declaration order and one entry per row, in order, with one cell per column:
the formatting of the value of the field the column names. -/
theorem GenerateTableView_table_of_readable_columns {V : Type} (sprint : V → String)
    (encode : Values → String) (store : Store V) (r : Request) (view : TableView)
    (hfields : ∀ row ∈ (store.Find (tableQuery r view)).rows, ∀ col ∈ view.ColumnData,
      ((FieldByName row col.Field).Interface).isSome = true) :
    ∃ data, (GenerateTableView sprint encode store r view).response = Response.Table data ∧
      data.Headers = view.ColumnData.map (fun col => col.Name) ∧
      data.Rows.length = (store.Find (tableQuery r view)).rows.length ∧
      (∀ cells ∈ data.Rows, cells.length = view.ColumnData.length) ∧
      List.Forall₂
        (fun row cells =>
          List.Forall₂
            (fun col cell =>
              ∃ v, FieldByName row col.Field = ReflectValue.valid v false ∧ cell = sprint v)
            view.ColumnData cells)
        (store.Find (tableQuery r view)).rows data.Rows := by
  obtain ⟨rows, hrows⟩ :=
    tableRows_isSome sprint view.ColumnData (store.Find (tableQuery r view)).rows hfields
  have hall : List.Forall₂
      (fun row cells =>
        List.Forall₂
          (fun col cell =>
            ∃ v, FieldByName row col.Field = ReflectValue.valid v false ∧ cell = sprint v)
          view.ColumnData cells)
      (store.Find (tableQuery r view)).rows rows := by
    have h := (tableRows_eq_some_iff sprint view.ColumnData _ rows).mp hrows
    exact h.imp (fun {row cells} hc =>
      (tableRowData_eq_some_iff sprint view.ColumnData row cells).mp hc)
  refine ⟨{ Title := view.Name, Filters := view.Filters,
            Headers := tableHeaders view.ColumnData, Rows := rows,
            Query := encode (Values.Del r.Query "sort") }, ?_, ?_, ?_, ?_, hall⟩
  · exact (GenerateTableView_response sprint encode store r view _).mpr ⟨rows, hrows, rfl⟩
  · exact tableHeaders_eq view.ColumnData
  · exact hall.length_eq.symm
  · intro cells hcells
    obtain ⟨row, -, hrc⟩ := forall₂_exists_of_mem_right hall hcells
    exact hrc.length_eq.symm

/-- Whenever `GenerateTableView` hands data to the template, its Query is
the encoding of the request's query parameters with the key `sort` deleted:
these have no key `sort` and every other key keeps its values. -/
theorem GenerateTableView_query_without_sort {V : Type} (sprint : V → String)
    (encode : Values → String) (store : Store V) (r : Request) (view : TableView)
    (data : TableData)
    (htable : (GenerateTableView sprint encode store r view).response = Response.Table data) :
    data.Query = encode (Values.Del r.Query "sort") ∧
      (∀ e ∈ Values.Del r.Query "sort", e.1 ≠ "sort") ∧
      Values.find (Values.Del r.Query "sort") "sort" = [] ∧
      ∀ key, key ≠ "sort" →
        Values.find (Values.Del r.Query "sort") key = Values.find r.Query key := by
  obtain ⟨rows, -, hdata⟩ :=
    (GenerateTableView_response sprint encode store r view data).mp htable
  refine ⟨?_, Values.not_mem_Del r.Query "sort", Values.find_Del_self r.Query "sort",
    fun key hne => Values.find_Del_of_ne r.Query "sort" key hne⟩
  rw [hdata]

/-- Whenever `GenerateEditableTableView` hands data to the template on a
request other than POST, Rows has one map per fetched row, in order; the map
of a row binds "ID" and the Field of every configured column to the value of
the row's field of that name, when the row has it, and has no other key. -/
theorem GenerateEditableTableView_row_maps {V : Type} (encode : Values → String)
    (store : Store V) (r : Request) (view : TableView) (hget : r.Method ≠ "POST")
    (data : EditableTableData V)
    (htable : (GenerateEditableTableView encode store r view).response =
      Response.EditableTable data) :
    data.Rows.length = (store.Find (Model view.Model)).rows.length ∧
      List.Forall₂
        (fun row rowData =>
          ∀ key, GoMap.get rowData key =
            if key = "ID" ∨ ∃ col ∈ view.ColumnData, col.Field = key
              then (FieldByName row key).Interface else none)
        (store.Find (Model view.Model)).rows data.Rows := by
  obtain ⟨-, tableData, htd, hdata⟩ :=
    (GenerateEditableTableView_response encode store r view hget data).mp htable
  have hall := (editableTableData_eq_some_iff view.ColumnData _ tableData).mp htd
  rw [hdata]
  exact ⟨hall.length_eq.symm, hall.imp (fun {row rowData} hrow key =>
    editableRowData_get view.ColumnData row rowData hrow key)⟩

/-! ## The claims -/

/-- C1: `GenerateTableView` runs exactly one query, and its ORDER BY clauses
are the single clause `sort` when the request's `sort` parameter is non-empty
and an element of `view.Sortable`, and none otherwise. -/
theorem C1_order_by_iff_sort_whitelisted {V : Type} (sprint : V → String)
    (encode : Values → String) (store : Store V) (r : Request) (view : TableView) :
    ∃ query, (GenerateTableView sprint encode store r view).calls = [Call.Find query] ∧
      query.orders =
        if Values.Get r.Query "sort" ≠ "" ∧ Values.Get r.Query "sort" ∈ view.Sortable
          then [Values.Get r.Query "sort"] else [] := by
  refine ⟨tableQuery r view, GenerateTableView_calls sprint encode store r view, ?_⟩
  unfold tableQuery
  rw [applySorting_orders, applyFilters_orders]
  simp [Model]

/-- C2: the WHERE clauses of the query `GenerateTableView` runs are, in the
order of `view.Filters`, the clause "<filter.Name> = ?" bound to the request's
value of the parameter `filter.Name` for each declared filter whose value is
non-empty; so every clause comes from a declared filter with a non-empty
value. -/
theorem C2_where_clauses_of_declared_filters {V : Type} (sprint : V → String)
    (encode : Values → String) (store : Store V) (r : Request) (view : TableView) :
    ∃ query, (GenerateTableView sprint encode store r view).calls = [Call.Find query] ∧
      query.wheres =
        (view.Filters.filter (fun filter => Values.Get r.Query filter.Name ≠ "")).map
          (fun filter => (filter.Name ++ " = ?", Values.Get r.Query filter.Name)) ∧
      (∀ clause ∈ query.wheres, ∃ filter ∈ view.Filters,
        clause = (filter.Name ++ " = ?", Values.Get r.Query filter.Name) ∧
          Values.Get r.Query filter.Name ≠ "") := by
  have hw : (tableQuery r view).wheres =
      (view.Filters.filter (fun filter => Values.Get r.Query filter.Name ≠ "")).map
        (fun filter => (filter.Name ++ " = ?", Values.Get r.Query filter.Name)) := by
    unfold tableQuery
    rw [applySorting_wheres, applyFilters_wheres]
    simp [Model]
  refine ⟨tableQuery r view, GenerateTableView_calls sprint encode store r view, hw, ?_⟩
  intro clause hc
  rw [hw] at hc
  simp only [List.mem_map, List.mem_filter, decide_eq_true_eq] at hc
  obtain ⟨filter, ⟨hmem, hne⟩, rfl⟩ := hc
  exact ⟨filter, hmem, rfl, hne⟩

/-- C3: on the view of `demo.go` with one more column, on a field the model
`User` does not have, `GenerateTableView` panics in `field.Interface()` on the
first fetched row: no template data is built, where the claim has one entry
per fetched row with one cell per column. -/
theorem C3_unknown_field_panics :
    (GenerateTableView sprintv encodePlain demoStore getAliceByAge emailView).response =
        Response.Panic ∧
      ¬ ∃ data,
        (GenerateTableView sprintv encodePlain demoStore getAliceByAge emailView).response =
          Response.Table data := by
  have h : (GenerateTableView sprintv encodePlain demoStore getAliceByAge emailView).response =
      Response.Panic := by decide
  refine ⟨h, ?_⟩
  rintro ⟨data, hd⟩
  rw [h] at hd
  cases hd

/-- C4, as stated, fails: for `GET /?Name=Alice&sort=Age` on the view of
`demo.go`, `GenerateTableView` fetches with the clause "Name = ?" bound to
Alice and ordered by Age, and `GenerateEditableTableView` fetches with no
clause at all. -/
theorem C4_editable_fetch_differs :
    (GenerateTableView sprintv encodePlain demoStore getAliceByAge demoView).calls =
        [Call.Find { Model := "User", wheres := [("Name = ?", "Alice")], orders := ["Age"] }] ∧
      (GenerateEditableTableView encodePlain demoStore getAliceByAge demoView).calls =
        [Call.Find { Model := "User", wheres := [], orders := [] }] ∧
      (GenerateEditableTableView encodePlain demoStore getAliceByAge demoView).calls ≠
        (GenerateTableView sprintv encodePlain demoStore getAliceByAge demoView).calls := by
  decide

/-- C4, amended: handling a non-POST request, `GenerateEditableTableView`
runs exactly one fetch, on the model of the view, and adds no ORDER BY clause
to it, whatever the `sort` parameter of the request is. -/
theorem C4_editable_fetch_unordered {V : Type} (encode : Values → String)
    (store : Store V) (r : Request) (view : TableView) (hget : r.Method ≠ "POST") :
    ∃ query, (GenerateEditableTableView encode store r view).calls = [Call.Find query] ∧
      query.Model = view.Model ∧ query.orders = [] := by
  exact ⟨Model view.Model,
    GenerateEditableTableView_calls_get encode store r view hget, rfl, rfl⟩

/-- Witness of C4: `GET /?Name=Alice&sort=Age` on the view of `demo.go`. -/
theorem C4_editable_fetch_witness :
    getAliceByAge.Method ≠ "POST" ∧
    ∃ query,
      (GenerateEditableTableView encodePlain demoStore getAliceByAge demoView).calls =
        [Call.Find query] ∧
      query.Model = demoView.Model ∧ query.orders = [] :=
  ⟨by decide,
    C4_editable_fetch_unordered encodePlain demoStore getAliceByAge demoView (by decide)⟩

/-- C5, as stated, fails: the request `POST /users?id=2&col_Name=Bobby`
with a body that does not parse has the form value `id` 2, and no update is
issued to the store. -/
theorem C5_unparsed_form_no_update :
    postBadBodyWithId.Method = "POST" ∧ FormValue postBadBodyWithId "id" = "2" ∧
      (GenerateEditableTableView encodePlain demoStore postBadBodyWithId demoView).calls =
        [] := by
  decide

/-- C5, amended: for every POST request whose form parses without error and
whose form value `id` is non-empty, exactly one call is made to the store, an
update that selects by "id = ?" bound to that id, on the model of the view;
its data map has exactly the keys `col.Field` of the configured columns whose
form value "col_" + `col.Field` is non-empty, each mapped to that form
value. -/
theorem C5_update_by_id_with_field_keys {V : Type} (encode : Values → String)
    (store : Store V) (r : Request) (view : TableView) (hpost : r.Method = "POST")
    (hform : r.ParseFormErr = none) (hid : FormValue r "id" ≠ "") :
    ∃ query data,
      (GenerateEditableTableView encode store r view).calls = [Call.Updates query data] ∧
      query.Model = view.Model ∧
      query.wheres = [("id = ?", FormValue r "id")] ∧
      query.orders = [] ∧
      ∀ key, GoMap.get data key =
        if (∃ col ∈ view.ColumnData, col.Field = key) ∧ FormValue r ("col_" ++ key) ≠ ""
          then some (FormValue r ("col_" ++ key)) else none := by
  refine ⟨(Model view.Model).Where "id = ?" (FormValue r "id"),
    updateData r view.ColumnData, ?_, rfl, rfl, rfl, updateData_get r view.ColumnData⟩
  unfold GenerateEditableTableView
  simp only [hpost, hform, hid, if_true, if_false]
  split <;> rfl

/-- Witness of C5: the edit form of Bob posted to a view whose column is
shown as "Full name" and stored in the field "Name". -/
theorem C5_update_witness :
    (postEditBob.Method = "POST" ∧ postEditBob.ParseFormErr = none ∧
      FormValue postEditBob "id" ≠ "") ∧
    ∃ query data,
      (GenerateEditableTableView encodePlain demoStore postEditBob nameView).calls =
        [Call.Updates query data] ∧
      query.Model = nameView.Model ∧
      query.wheres = [("id = ?", FormValue postEditBob "id")] ∧
      query.orders = [] ∧
      ∀ key, GoMap.get data key =
        if (∃ col ∈ nameView.ColumnData, col.Field = key) ∧
            FormValue postEditBob ("col_" ++ key) ≠ ""
          then some (FormValue postEditBob ("col_" ++ key)) else none :=
  ⟨by decide,
    C5_update_by_id_with_field_keys encodePlain demoStore postEditBob nameView
      (by decide) (by decide) (by decide)⟩

/-- C6, as stated, fails: the request `POST /users` with a body that does
not parse has no form value `id`, and the response is status 400 with the
message of the parse failure, not "Missing record ID". -/
theorem C6_unparsed_form_other_message :
    postBadBody.Method = "POST" ∧ FormValue postBadBody "id" = "" ∧
      (GenerateEditableTableView encodePlain demoStore postBadBody demoView).response =
        Response.Error "Failed to parse form data: invalid URL escape \"%zz\"" 400 ∧
      (GenerateEditableTableView encodePlain demoStore postBadBody demoView).response ≠
        Response.Error "Missing record ID" 400 := by
  decide

/-- C6, amended: for every POST request whose form value `id` is absent or
empty, the response is status 400, with the message "Missing record ID" when
the form parsed without error and with the message "Failed to parse form
data: " followed by the error when it did not; no call is made to the store,
whatever the col_ form values are, so no update is issued, and the response
is neither a redirect nor a table. -/
theorem C6_missing_id_rejected {V : Type} (encode : Values → String)
    (store : Store V) (r : Request) (view : TableView) (hpost : r.Method = "POST")
    (hid : FormValue r "id" = "") :
    (GenerateEditableTableView encode store r view).response =
        Response.Error
          (match r.ParseFormErr with
            | some err => "Failed to parse form data: " ++ err
            | none => "Missing record ID") 400 ∧
      (GenerateEditableTableView encode store r view).calls = [] := by
  unfold GenerateEditableTableView
  simp only [hpost, hid, if_true]
  cases r.ParseFormErr <;> exact ⟨rfl, rfl⟩

/-- Witness of C6: a posted form with a column value and no `id`. -/
theorem C6_missing_id_witness :
    (postNoId.Method = "POST" ∧ FormValue postNoId "id" = "") ∧
    (GenerateEditableTableView encodePlain demoStore postNoId demoView).response =
        Response.Error
          (match postNoId.ParseFormErr with
            | some err => "Failed to parse form data: " ++ err
            | none => "Missing record ID") 400 ∧
      (GenerateEditableTableView encodePlain demoStore postNoId demoView).calls = [] :=
  ⟨by decide,
    C6_missing_id_rejected encodePlain demoStore postNoId demoView (by decide) (by decide)⟩

/-- C7: for `GET /?Name=Alice&sort=Age` on the view of `demo.go` the Query
string handed to the template is `Name=Alice`, and the link of the header ID
is rendered as `?sort=ID&Name%3dAlice`, not `?sort=ID&Name=Alice`: the `=` of
the pair is escaped, so the link does not carry the parameter Name and the
active filter is not kept, where the claim has the sort link keep it. -/
theorem C7_sort_link_drops_filter :
    (GenerateTableView sprintv encodePlain demoStore getAliceByAge demoView).response =
        Response.Table
          { Title := "Dynamic Table", Filters := demoView.Filters,
            Headers := ["ID", "Name", "Age"],
            Rows := [["1", "Alice", "30"], ["2", "Bob", "25"], ["3", "Charlie", "35"]],
            Query := "Name=Alice" } ∧
      sortLink "ID" "Name=Alice" = "?sort=ID&Name%3dAlice" ∧
      sortLink "ID" "Name=Alice" ≠ "?sort=ID&Name=Alice" := by
  decide

/-- C8: on a model with an unexported field `note` and a view with a column
on that field, `FieldByName` finds the field, `IsValid` holds, and
`GenerateEditableTableView` panics in `field.Interface()`: no row map is
built, where the claim has the map of the row bind the key `note`. -/
theorem C8_unexported_field_panics :
    (∀ row ∈ noteRows, (FieldByName row "note").IsValid = true) ∧
      (GenerateEditableTableView encodePlain noteStore getAll noteView).calls =
        [Call.Find (Model "Note")] ∧
      (GenerateEditableTableView encodePlain noteStore getAll noteView).response =
        Response.Panic := by
  decide

end Tablow
